import Mathlib

/-!
Verification of the concurrent media-validation engine in
`src/Programs/metadata.py`: a shallow embedding of its data model
(flattened probe metadata records, the result store, the scan-mode
policy) and proofs about the properties its design documents state.

Python dictionaries are modelled as association lists together with the
dict operations (`dinsert`, `dupdate`, `dictOf`, `dlookup`), ffprobe's
JSON output as a recursive value type whose scalar leaves are modelled
by their display text, and the effectful parts of `run_ffprobe` /
`validate_url_entry` (HTTP range fetches, the ffprobe subprocess) as a
`World` of oracles, with the fetches and subprocess spawns a call
performs returned alongside its record.
-/

/-- A JSON value as the probe tool emits it. Scalar leaves (strings,
numbers, booleans, null) are modelled by their display text; arrays are
kept because `flatten_dict` treats any non-dict value, a list included,
as a leaf. -/
inductive JVal : Type where
  | leaf : String → JVal
  | arr : List JVal → JVal
  | obj : List (String × JVal) → JVal

/-- Python `d[k] = v` on a dict modelled as an association list: replace
the value at the (unique) binding of `k` in place when the key is
present, append at the end otherwise — Python's dict keeps a key's first
insertion position and its latest value. -/
def dinsert : List (String × α) → String → α → List (String × α)
  | [], k, v => [(k, v)]
  | p :: rest, k, v => if p.1 = k then (k, v) :: rest else p :: dinsert rest k v

/-- Python `d.update(items)`: `dinsert` each item in order. -/
def dupdate (d : List (String × α)) (items : List (String × α)) : List (String × α) :=
  items.foldl (fun acc p => dinsert acc p.1 p.2) d

/-- Python `dict(items)`: build a dict from a list of pairs (a later
duplicate key overwrites an earlier one's value). -/
def dictOf (items : List (String × α)) : List (String × α) :=
  dupdate [] items

/-- Python `d.get(k)` / `d[k]` lookup. Keys are unique in every dict the
model builds, so the first match is the binding. -/
def dlookup : List (String × α) → String → Option α
  | [], _ => none
  | p :: rest, k => if p.1 = k then some p.2 else dlookup rest k

/-- The keys of a dict, in insertion order (Python `d.keys()`). -/
def dkeys (d : List (String × α)) : List String :=
  d.map Prod.fst

/-- `new_key = parent_key + sep + k if parent_key else k` with `sep = '_'`
(metadata.py line 69). -/
def joinKey (parent k : String) : String :=
  if parent = "" then k else (parent ++ "_") ++ k

mutual
/-- The item list `flatten_dict` accumulates (metadata.py lines 67-73)
before the final `dict(items)`: iterate the entries in order, recursing
into dict values with the joined key and emitting anything else as a
leaf item. -/
def flattenObj (parent : String) : List (String × JVal) → List (String × JVal)
  | [] => []
  | (k, v) :: rest => flattenVal parent k v ++ flattenObj parent rest

/-- One entry of `flatten_dict`'s loop: a dict value recurses, any other
value becomes the single item `(new_key, v)`. -/
def flattenVal (parent k : String) : JVal → List (String × JVal)
  | .obj kvs => flattenObj (joinKey parent k) kvs
  | .leaf s => [(joinKey parent k, .leaf s)]
  | .arr xs => [(joinKey parent k, .arr xs)]
end

/-- `flatten_dict(d, parent_key)` (metadata.py lines 65-74): the items,
collapsed into a dict. -/
def flatten_dict (d : List (String × JVal)) (parent : String) : List (String × JVal) :=
  dictOf (flattenObj parent d)

mutual
/-- Number of leaf values (scalars and arrays) under a JSON value. -/
def leafCountVal : JVal → Nat
  | .obj kvs => leafCountObj kvs
  | .leaf _ => 1
  | .arr _ => 1

/-- Number of leaf values under a JSON object's entries. -/
def leafCountObj : List (String × JVal) → Nat
  | [] => 0
  | (_, v) :: rest => leafCountVal v + leafCountObj rest
end

example : flatten_dict [("a", .obj [("b", .leaf "1")]), ("c", .leaf "2")] "" =
    [("a_b", JVal.leaf "1"), ("c", JVal.leaf "2")] := rfl

example : flatten_dict [("a", .obj [("b", .leaf "1")]), ("a_b", .leaf "2")] "" =
    [("a_b", JVal.leaf "2")] := rfl

example : leafCountObj [("a", .obj [("b", .leaf "1")]), ("a_b", .leaf "2")] = 2 := rfl

/-- A value stored in a validation record: the Python values the code
puts into its metadata dicts are booleans (`is_valid`), strings (error
codes, `validation_method`, row fields), JSON values carried over by
flattening (`file_size_bytes` and all flattened metadata), or `None`
(`file_size_bytes` when the format object has no size field). -/
inductive RVal : Type where
  | bv : Bool → RVal
  | sv : String → RVal
  | jv : JVal → RVal
  | noneV : RVal

/-- One per-URL metadata dict (a `ProbeOutcome` / `ValidationRecord`). -/
abbrev Record := List (String × RVal)

mutual
/-- Python `str()` of a JSON value, as f-string interpolation applies it
to `codec_type`. Scalar leaves are modelled by their display text, so
the (in practice never exercised) rendering of a non-scalar is
approximate in its quoting. -/
def strOfJVal : JVal → String
  | .leaf s => s
  | .arr xs => "[" ++ strOfJList xs ++ "]"
  | .obj kvs => "\x7b" ++ strOfJItems kvs ++ "\x7d"

/-- Comma-joined renderings of a JSON array's elements. -/
def strOfJList : List JVal → String
  | [] => ""
  | [x] => strOfJVal x
  | x :: rest => strOfJVal x ++ ", " ++ strOfJList rest

/-- Comma-joined renderings of a JSON object's entries. -/
def strOfJItems : List (String × JVal) → String
  | [] => ""
  | [(k, v)] => k ++ ": " ++ strOfJVal v
  | (k, v) :: rest => k ++ ": " ++ strOfJVal v ++ ", " ++ strOfJItems rest
end

/-- `stream.get('codec_type', 'unknown')` rendered into the stream key
prefix (metadata.py line 123). -/
def codecTypeOf (stream : List (String × JVal)) : String :=
  match dlookup stream "codec_type" with
  | some v => strOfJVal v
  | none => "unknown"

/-- The body `ffprobe` would read: a byte string, as a list of byte values. -/
abbrev Bytes := List Nat

/-- The parsed JSON document ffprobe printed: an optional `format`
object and the `streams` array (an absent `streams` key is modelled as
the empty list — the code treats both the same, via falsiness at line
112 and `data.get('streams', [])` at line 122). The model assumes the
probe tool's documented output shape: `format` an object, `streams` an
array of objects. -/
structure FFData : Type where
  format : Option (List (String × JVal))
  streams : List (List (String × JVal))

/-- `json.loads(result.stdout)`: either a parse failure (which the code's
`except Exception` turns into `general_error`) or the parsed document. -/
inductive JsonOut : Type where
  | malformed : String → JsonOut
  | parsed : FFData → JsonOut

/-- One `subprocess.run(['ffprobe', ...])` call: either it exceeds its
timeout (raising, caught as `general_error`) or it completes with an
exit code, stdout (given already through the JSON parser) and stderr. -/
inductive ProbeRun : Type where
  | timeout : String → ProbeRun
  | done : Int → JsonOut → String → ProbeRun

/-- One `session.get(url, headers={'Range': ...})` together with
`raise_for_status()`: either some `requests.exceptions.RequestException`
(non-2xx status, connection failure, timeout) with its message, or the
response body. -/
inductive FetchRes : Type where
  | exn : String → FetchRes
  | ok : Bytes → FetchRes

/-- The environment a validation task runs against: what the 5 MB
(partial) and 100 MB (deep) range fetches of each URL return, and what
the ffprobe subprocess does on a given stdin. -/
structure World : Type where
  fetchPartial : String → FetchRes
  fetchFull : String → FetchRes
  probe : Bytes → ProbeRun

/-- The externally visible effects of one validation call: how many
partial-size and full-size range fetches were issued, and how many
ffprobe subprocesses were spawned. -/
structure Eff : Type where
  partialFetches : Nat
  fullFetches : Nat
  spawns : Nat

/-- The success record `run_ffprobe` builds (metadata.py lines 115-126):
`is_valid`/`validation_method`, then the flattened `format` object and
the `file_size_bytes` convenience key when `format` is present, then
each stream flattened under `stream_<index>_<codec_type>`. -/
def streamUpdates (m : Record) : List (List (String × JVal)) → Nat → Record
  | [], _ => m
  | st :: rest, i =>
      streamUpdates
        (dupdate m ((flattenObj ((("stream_" ++ toString i) ++ "_") ++ codecTypeOf st) st).map
          (fun p => (p.1, RVal.jv p.2))))
        rest (i + 1)

/-- The record of a successful probe: metadata.py lines 115-126. -/
def successRecord (data : FFData) (partialFlag : Bool) : Record :=
  let metadata : Record :=
    [("is_valid", .bv true),
     ("validation_method", .sv (if partialFlag then "partial" else "full"))]
  let metadata : Record :=
    match data.format with
    | some fmt =>
        dinsert (dupdate metadata ((flattenObj "format" fmt).map (fun p => (p.1, RVal.jv p.2))))
          "file_size_bytes"
          (match dlookup fmt "size" with
           | some v => RVal.jv v
           | none => RVal.noneV)
    | none => metadata
  streamUpdates metadata data.streams 0

/-- `run_ffprobe(session, url, partial)` (metadata.py lines 76-131),
with the record paired with the effects the call performed. Exception
handling is explicit: every raise site inside the `try` is an oracle
outcome routed to the matching `except` clause's record. -/
def run_ffprobe (w : World) (url : String) (partialFlag : Bool) : Record × Eff :=
  match (if partialFlag then w.fetchPartial url else w.fetchFull url) with
  | .exn msg =>
      ([("is_valid", .bv false), ("error", .sv ("http_error: " ++ msg))],
       if partialFlag then ⟨1, 0, 0⟩ else ⟨0, 1, 0⟩)
  | .ok content =>
    if partialFlag && content.isEmpty then
      ([("is_valid", .bv false), ("error", .sv "empty_response_body")],
       if partialFlag then ⟨1, 0, 0⟩ else ⟨0, 1, 0⟩)
    else
      match w.probe content with
      | .timeout msg =>
          ([("is_valid", .bv false), ("error", .sv ("general_error: " ++ msg)),
            ("url", .sv url)],
           if partialFlag then ⟨1, 0, 1⟩ else ⟨0, 1, 1⟩)
      | .done rc out stderr =>
        if rc ≠ 0 then
          ([("is_valid", .bv false), ("error", .sv ("ffprobe_error: " ++ stderr.take 200))],
           if partialFlag then ⟨1, 0, 1⟩ else ⟨0, 1, 1⟩)
        else
          match out with
          | .malformed msg =>
              ([("is_valid", .bv false), ("error", .sv ("general_error: " ++ msg)),
                ("url", .sv url)],
               if partialFlag then ⟨1, 0, 1⟩ else ⟨0, 1, 1⟩)
          | .parsed data =>
            if data.streams.isEmpty then
              ([("is_valid", .bv false), ("error", .sv "no_media_streams")],
               if partialFlag then ⟨1, 0, 1⟩ else ⟨0, 1, 1⟩)
            else
              (successRecord data partialFlag,
               if partialFlag then ⟨1, 0, 1⟩ else ⟨0, 1, 1⟩)

/-- Python's `'needle' in haystack` substring test. -/
def pyIn (needle hay : String) : Bool :=
  hay.toList.tails.any (fun t => needle.toList.isPrefixOf t)

/-- Python truthiness of a dict lookup's result, as
`fast_result.get('is_valid')` uses it (the code only ever stores a
boolean there; scalar leaves are judged by their display text). -/
def pyTruthy : Option RVal → Bool
  | some (.bv x) => x
  | some (.sv x) => !(x == "")
  | some (.jv (.leaf s)) => !(s == "")
  | some (.jv (.arr xs)) => !xs.isEmpty
  | some (.jv (.obj kvs)) => !kvs.isEmpty
  | some .noneV => false
  | none => false

/-- `fast_result.get('error', '')` as the substring test reads it — the
code only ever stores a string error. -/
def errStrOf (r : Record) : String :=
  match dlookup r "error" with
  | some (.sv e) => e
  | _ => ""

/-- `validate_url_entry(url, session, scan_mode)` (metadata.py lines
133-156), with its effects. The sentinel check precedes any fetch; the
`two-pass` branch re-probes at full size exactly when the fast result is
falsy on `is_valid` and its error contains `no_media_streams`. -/
def validate_url_entry (w : World) (url : String) (scan_mode : String) : Record × Eff :=
  if pyIn "no_media_yet" url || pyIn "tiny_file" url then
    ([("is_valid", .bv false), ("error", .sv "skipped_unsolved_or_tiny")], ⟨0, 0, 0⟩)
  else if scan_mode == "fast" then
    run_ffprobe w url true
  else if scan_mode == "full" then
    run_ffprobe w url false
  else if scan_mode == "two-pass" then
    if pyTruthy (dlookup (run_ffprobe w url true).1 "is_valid") then
      run_ffprobe w url true
    else if pyIn "no_media_streams" (errStrOf (run_ffprobe w url true).1) then
      ((run_ffprobe w url false).1,
       ⟨(run_ffprobe w url true).2.partialFetches + (run_ffprobe w url false).2.partialFetches,
        (run_ffprobe w url true).2.fullFetches + (run_ffprobe w url false).2.fullFetches,
        (run_ffprobe w url true).2.spawns + (run_ffprobe w url false).2.spawns⟩)
    else run_ffprobe w url true
  else ([("is_valid", .bv false), ("error", .sv "invalid_scan_mode")], ⟨0, 0, 0⟩)

/-- One row of the input CSV after the `media_type` sentinel filter
(metadata.py lines 222-228): the fields the queue logic reads. -/
structure SourceRow : Type where
  original_url : String
  actual_url : String
  media_type : String

/-- The pending-set computation at the top of each iteration
(metadata.py lines 238-242): the source rows whose `actual_url` is not a
key of `processed_urls`. -/
def pendingRows (source_rows : List SourceRow) (processed_urls : List (String × Record)) :
    List SourceRow :=
  source_rows.filter (fun row => !((processed_urls.map Prod.fst).contains row.actual_url))

/-- How many times the harvest loop's batched save fires (metadata.py
line 299): completions are enumerated `i = 0, 1, ...` and the store is
saved after each one with `(i + 1) % SAVE_BATCH_SIZE == 0`. -/
def batchSaves (completions batch : Nat) : Nat :=
  (List.range completions).countP (fun i => (i + 1) % batch == 0)

/-- Total saves in one scan pass over `completions` harvested futures:
the batched saves of the loop plus the unconditional final save
(metadata.py line 303). -/
def saveInvocations (completions batch : Nat) : Nat :=
  batchSaves completions batch + 1

/-- Python `str(True)' / `str(False)`, as `csv.DictWriter` renders the
boolean `is_valid` field (metadata.py line 174). -/
def strOfBool (b : Bool) : String :=
  if b then "True" else "False"

/-- `row['is_valid'] = (row['is_valid'] == 'True')` — the resume loader's
re-parse of the serialized boolean (metadata.py line 189). -/
def parseIsValid (cell : String) : Bool :=
  cell == "True"

/-- `str()` of a record value as `csv.DictWriter.writerows` renders each
cell (`None` becomes the empty cell). -/
def cellOfRVal : RVal → String
  | .bv x => strOfBool x
  | .sv x => x
  | .jv v => strOfJVal v
  | .noneV => ""

/-- A cell of a written CSV row: the rendered value under header `h`, or
the writer's empty `restval` for a key the record lacks. -/
def cellOf (r : Record) (h : String) : String :=
  match dlookup r h with
  | some v => cellOfRVal v
  | none => ""

/-- The fixed preferred ordering for key columns (metadata.py line 168). -/
def preferred_order : List String :=
  ["original_url", "actual_url", "media_type", "is_valid", "validation_method",
   "file_size_bytes", "error"]

/-- The sort key `preferred_order.index(h) if h in preferred_order else
len(preferred_order)` (metadata.py line 169). -/
def prefIndex (h : String) : Nat :=
  match preferred_order.findIdx? (fun x => x == h) with
  | some i => i
  | none => preferred_order.length

/-- The lexicographic comparison on `(prefIndex h, h)` that
`sorted(..., key=lambda h: (..., h))` orders headers by. -/
def headerLe (a b : String) : Bool :=
  prefIndex a < prefIndex b || (prefIndex a == prefIndex b && a ≤ b)

/-- Insertion into a `headerLe`-sorted list. -/
def insertHeader (x : String) : List String → List String
  | [] => [x]
  | y :: ys => if headerLe x y then x :: y :: ys else y :: insertHeader x ys

/-- `sorted_headers` (metadata.py lines 162-169): the union of all
records' keys, sorted by `(prefIndex, name)` — the sort key is injective
on distinct names, so the set's iteration order is immaterial. -/
def sortedHeaders (results : List Record) : List String :=
  ((results.flatMap (fun r => r.map Prod.fst)).dedup).foldr insertHeader []

/-- The durable snapshot `save_results_to_csv` writes: the header row
and one rendered row per record. -/
structure CsvFile : Type where
  headers : List String
  rows : List (List String)

/-- `save_results_to_csv(results, file_path)` (metadata.py lines
158-175) as a transformer of the output file's contents: an empty
result list returns before opening the file, leaving the previous
snapshot untouched; otherwise the whole store is rewritten. -/
def save_results_to_csv (results : List Record) (file : Option CsvFile) : Option CsvFile :=
  if results.isEmpty then file
  else
    let headers := sortedHeaders results
    some ⟨headers, results.map (fun r => headers.map (cellOf r))⟩

/-- The resume loader's row reconstruction (metadata.py lines 185-190):
cells are re-read as strings keyed by header, then `is_valid`, when
present, is re-parsed into a boolean. -/
def loadRow (headers : List String) (cells : List String) : Record :=
  match dlookup (headers.zip cells) "is_valid" with
  | some cell =>
      dinsert ((headers.zip cells).map (fun p => (p.1, RVal.sv p.2))) "is_valid"
        (RVal.bv (parseIsValid cell))
  | none => (headers.zip cells).map (fun p => (p.1, RVal.sv p.2))

/-- Python substring containment as a Bool on strings: `p` begins `s`. -/
def strStarts (p s : String) : Bool :=
  p.toList.isPrefixOf s.toList

/-- The error taxonomy of the design (§7): every `error` value a
validation task can produce is one of these — `http_error` (HttpError),
`empty_response_body` (EmptyBody), `ffprobe_error` and `general_error`
(ProbeError: non-zero exit, malformed output, subprocess timeout),
`no_media_streams` (NoMediaStreams), `skipped_unsolved_or_tiny`
(SkippedSentinel) and `invalid_scan_mode` (InvalidMode). -/
def errTaxonomy (e : String) : Prop :=
  (∃ m, e = "http_error: " ++ m) ∨ e = "empty_response_body" ∨
  (∃ m, e = "ffprobe_error: " ++ m) ∨ (∃ m, e = "general_error: " ++ m) ∨
  e = "no_media_streams" ∨ e = "skipped_unsolved_or_tiny" ∨ e = "invalid_scan_mode"

/-- A world whose probe parses to one stream entry that is an empty
object: the probe output has a stream, but flattening it adds no keys. -/
def wEmptyStreamObj : World where
  fetchPartial := fun _ => .ok [1]
  fetchFull := fun _ => .ok [1]
  probe := fun _ => .done 0 (.parsed ⟨none, [[]]⟩) ""

/-- A world whose fast fetch raises an HTTP exception whose message
happens to contain the characters `no_media_streams` (for example a
connection error naming such a URL), and whose deep fetch succeeds. -/
def wEscalateHttp : World where
  fetchPartial := fun _ => .exn "Max retries exceeded: /media/no_media_streams_clip.mp4"
  fetchFull := fun _ => .ok [5]
  probe := fun _ => .done 0 (.parsed ⟨none, [[("codec_type", JVal.leaf "video")]]⟩) ""

/-- A world whose fast probe succeeds outright. -/
def wValidFast : World where
  fetchPartial := fun _ => .ok [7]
  fetchFull := fun _ => .ok [7]
  probe := fun _ => .done 0 (.parsed ⟨none, [[("codec_type", JVal.leaf "video")]]⟩) ""

/-- A world whose fast (5 MB) fetch returns HTTP success with an empty
body. -/
def wEmptyBody : World where
  fetchPartial := fun _ => .ok []
  fetchFull := fun _ => .ok []
  probe := fun _ => .timeout "unreached"

/-- A world whose deep (100 MB) fetch returns HTTP success with an empty
body, and whose probe of those empty bytes exits non-zero. -/
def wFullEmpty : World where
  fetchPartial := fun _ => .ok []
  fetchFull := fun _ => .ok []
  probe := fun _ => .done 1 (.malformed "") "mock stderr"

/-- A concrete already-validated record used to instantiate the CSV
round-trip of `is_valid`. -/
def recW : Record :=
  [("actual_url", RVal.sv "https://host/a.mp4"), ("is_valid", RVal.bv true)]

/-! ### Dictionary lemmas -/

theorem dlookup_dinsert_self (d : List (String × α)) (k : String) (v : α) :
    dlookup (dinsert d k v) k = some v := by
  induction d with
  | nil => simp [dinsert, dlookup]
  | cons p rest ih =>
    by_cases h : p.1 = k
    · simp [dinsert, dlookup, h]
    · simp [dinsert, dlookup, h, ih]

theorem dlookup_dinsert_ne (d : List (String × α)) (k k' : String) (v : α) (h : k' ≠ k) :
    dlookup (dinsert d k v) k' = dlookup d k' := by
  induction d with
  | nil => simp [dinsert, dlookup, Ne.symm h]
  | cons p rest ih =>
    by_cases hp : p.1 = k
    · simp [dinsert, dlookup, hp, Ne.symm h]
    · simp [dinsert, dlookup, hp, ih]

theorem mem_dkeys_dinsert_self (d : List (String × α)) (k : String) (v : α) :
    k ∈ dkeys (dinsert d k v) := by
  induction d with
  | nil => simp [dinsert, dkeys]
  | cons p rest ih =>
    by_cases h : p.1 = k
    · simp [dinsert, h, dkeys]
    · simp only [dinsert, if_neg h, dkeys, List.map_cons, List.mem_cons]
      exact Or.inr ih

theorem mem_dkeys_dinsert_of_mem (d : List (String × α)) (k k' : String) (v : α)
    (h : k' ∈ dkeys d) : k' ∈ dkeys (dinsert d k v) := by
  induction d with
  | nil => simp [dkeys] at h
  | cons p rest ih =>
    rcases List.mem_cons.mp h with h1 | h1
    · by_cases hp : p.1 = k
      · simp only [dinsert, if_pos hp, dkeys, List.map_cons, List.mem_cons]
        exact Or.inl (h1.trans hp)
      · simp only [dinsert, if_neg hp, dkeys, List.map_cons, List.mem_cons]
        exact Or.inl h1
    · by_cases hp : p.1 = k
      · simp only [dinsert, if_pos hp, dkeys, List.map_cons, List.mem_cons]
        exact Or.inr h1
      · simp only [dinsert, if_neg hp, dkeys, List.map_cons, List.mem_cons]
        exact Or.inr (ih h1)

theorem dlookup_mem_dkeys (d : List (String × α)) (k : String) (v : α)
    (h : dlookup d k = some v) : k ∈ dkeys d := by
  induction d with
  | nil => simp [dlookup] at h
  | cons p rest ih =>
    by_cases hp : p.1 = k
    · simp [dkeys, hp]
    · simp only [dlookup, if_neg hp] at h
      simp only [dkeys, List.map_cons, List.mem_cons]
      exact Or.inr (ih h)

theorem dlookup_dupdate_not_mem (items d : List (String × α)) (k : String)
    (h : ∀ p ∈ items, p.1 ≠ k) :
    dlookup (dupdate d items) k = dlookup d k := by
  induction items generalizing d with
  | nil => rfl
  | cons q rest ih =>
    have step : dupdate d (q :: rest) = dupdate (dinsert d q.1 q.2) rest := rfl
    rw [step, ih (dinsert d q.1 q.2) (fun p hp => h p (List.mem_cons_of_mem _ hp)),
      dlookup_dinsert_ne _ _ _ _ (Ne.symm (h q (List.mem_cons_self _ _)))]

theorem mem_dkeys_dupdate_of_mem (items d : List (String × α)) (k : String)
    (h : k ∈ dkeys d) : k ∈ dkeys (dupdate d items) := by
  induction items generalizing d with
  | nil => exact h
  | cons q rest ih =>
    exact ih (dinsert d q.1 q.2) (mem_dkeys_dinsert_of_mem _ _ _ _ h)

theorem mem_dkeys_dupdate_of_mem_items (items d : List (String × α)) (k : String)
    (h : k ∈ dkeys items) : k ∈ dkeys (dupdate d items) := by
  induction items generalizing d with
  | nil => simp [dkeys] at h
  | cons q rest ih =>
    rcases List.mem_cons.mp h with h1 | h1
    · have step : dupdate d (q :: rest) = dupdate (dinsert d q.1 q.2) rest := rfl
      rw [step]
      exact mem_dkeys_dupdate_of_mem _ _ _ (h1 ▸ mem_dkeys_dinsert_self d q.1 q.2)
    · exact ih (dinsert d q.1 q.2) h1

theorem dinsert_of_not_mem (d : List (String × α)) (k : String) (v : α)
    (h : k ∉ dkeys d) : dinsert d k v = d ++ [(k, v)] := by
  induction d with
  | nil => rfl
  | cons p rest ih =>
    simp only [dkeys, List.map_cons, List.mem_cons, not_or] at h
    simp only [dinsert, if_neg (fun hp : p.1 = k => h.1 hp.symm), List.cons_append,
      List.cons.injEq, true_and]
    exact ih (by simpa [dkeys] using h.2)

theorem dupdate_append_of_nodup (items d : List (String × α))
    (hnd : (dkeys items).Nodup) (hdisj : ∀ k ∈ dkeys items, k ∉ dkeys d) :
    dupdate d items = d ++ items := by
  induction items generalizing d with
  | nil => simp [dupdate]
  | cons q rest ih =>
    simp only [dkeys, List.map_cons, List.nodup_cons] at hnd
    have hq : q.1 ∉ dkeys d := hdisj q.1 (by simp [dkeys])
    have step : dupdate d (q :: rest) = dupdate (dinsert d q.1 q.2) rest := rfl
    rw [step, dinsert_of_not_mem _ _ _ hq, ih (d ++ [(q.1, q.2)]) (by simpa [dkeys] using hnd.2)]
    · simp
    · intro k hk
      simp only [dkeys, List.map_append, List.map_cons, List.map_nil, List.mem_append,
        List.mem_cons, List.not_mem_nil, or_false, not_or]
      refine ⟨fun hkd => hdisj k (List.mem_cons_of_mem _ hk) hkd, fun hkq => hnd.1 (hkq ▸ hk)⟩

theorem dictOf_eq_self_of_nodup (items : List (String × α))
    (hnd : (dkeys items).Nodup) : dictOf items = items := by
  unfold dictOf
  rw [dupdate_append_of_nodup items [] hnd (by intro k _; simp [dkeys])]
  rfl

/-! ### String prefix lemmas -/

theorem isPrefixOf_iff_exists {l₁ l₂ : List Char} :
    l₁.isPrefixOf l₂ = true ↔ ∃ t, l₁ ++ t = l₂ := by
  induction l₁ generalizing l₂ with
  | nil => simp
  | cons a as ih =>
    cases l₂ with
    | nil => simp
    | cons b bs =>
      simp only [List.isPrefixOf_cons₂, Bool.and_eq_true, beq_iff_eq, ih, List.cons_append,
        List.cons.injEq]
      constructor
      · rintro ⟨rfl, t, rfl⟩
        exact ⟨t, rfl, rfl⟩
      · rintro ⟨t, rfl, rfl⟩
        exact ⟨rfl, t, rfl⟩

theorem strStarts_iff (p s : String) : strStarts p s = true ↔ ∃ t, p ++ t = s := by
  unfold strStarts
  rw [isPrefixOf_iff_exists]
  constructor
  · rintro ⟨t, ht⟩
    refine ⟨⟨t⟩, String.ext ?_⟩
    simpa [String.toList] using ht
  · rintro ⟨t, rfl⟩
    exact ⟨t.data, by simp [String.toList]⟩

theorem strStarts_refl_append (a b : String) : strStarts a (a ++ b) = true :=
  (strStarts_iff a (a ++ b)).mpr ⟨b, rfl⟩

theorem strStarts_append_right {a s : String} (h : strStarts a s = true) (t : String) :
    strStarts a (s ++ t) = true := by
  rcases (strStarts_iff a s).mp h with ⟨u, rfl⟩
  exact (strStarts_iff _ _).mpr ⟨u ++ t, (String.append_assoc a u t).symm⟩

theorem ne_of_strStarts {a k tgt : String} (hk : strStarts a k = true)
    (ht : strStarts a tgt = false) : k ≠ tgt := by
  intro h
  rw [h, ht] at hk
  exact Bool.false_ne_true hk

theorem append_ne_empty_left (a b : String) (h : a ≠ "") : a ++ b ≠ "" := by
  intro he
  apply h
  apply String.ext
  have hd := congrArg String.data he
  rw [String.data_append] at hd
  exact (List.append_eq_nil.mp hd).1

/-! ### Flattening lemmas -/

mutual
theorem flattenObj_length : ∀ (parent : String) (d : List (String × JVal)),
    (flattenObj parent d).length = leafCountObj d
  | _, [] => rfl
  | parent, (k, v) :: rest => by
    simp only [flattenObj, List.length_append, flattenVal_length parent k v,
      flattenObj_length parent rest, leafCountObj]

theorem flattenVal_length : ∀ (parent k : String) (v : JVal),
    (flattenVal parent k v).length = leafCountVal v
  | _, _, .leaf _ => rfl
  | _, _, .arr _ => rfl
  | parent, k, .obj kvs => by
    simp only [flattenVal, flattenObj_length (joinKey parent k) kvs, leafCountVal]
end

mutual
theorem flattenObj_key : ∀ (parent : String) (d : List (String × JVal)), parent ≠ "" →
    ∀ k ∈ dkeys (flattenObj parent d), ∃ rest, k = (parent ++ "_") ++ rest
  | parent, [], _, k, hk => by simp [flattenObj, dkeys] at hk
  | parent, (k₀, v) :: tail, hp, k, hk => by
    simp only [flattenObj, dkeys, List.map_append, List.mem_append] at hk
    rcases hk with h | h
    · exact flattenVal_key parent k₀ v hp k h
    · exact flattenObj_key parent tail hp k h

theorem flattenVal_key : ∀ (parent key : String) (v : JVal), parent ≠ "" →
    ∀ k ∈ dkeys (flattenVal parent key v), ∃ rest, k = (parent ++ "_") ++ rest
  | parent, key, .leaf s, hp, k, hk => by
    simp only [flattenVal, dkeys, List.map_cons, List.map_nil, List.mem_cons,
      List.not_mem_nil, or_false, joinKey, if_neg hp] at hk
    exact ⟨key, hk⟩
  | parent, key, .arr xs, hp, k, hk => by
    simp only [flattenVal, dkeys, List.map_cons, List.map_nil, List.mem_cons,
      List.not_mem_nil, or_false, joinKey, if_neg hp] at hk
    exact ⟨key, hk⟩
  | parent, key, .obj kvs, hp, k, hk => by
    simp only [flattenVal] at hk
    have hne : joinKey parent key ≠ "" := by
      rw [joinKey, if_neg hp]
      exact append_ne_empty_left _ _ (append_ne_empty_left _ _ hp)
    rcases flattenObj_key (joinKey parent key) kvs hne k hk with ⟨r, hr⟩
    rw [joinKey, if_neg hp] at hr
    refine ⟨key ++ ("_" ++ r), ?_⟩
    rw [hr, String.append_assoc, String.append_assoc]
end

theorem flattenObj_key_starts (parent : String) (d : List (String × JVal)) (hp : parent ≠ "")
    (k : String) (hk : k ∈ dkeys (flattenObj parent d)) :
    strStarts (parent ++ "_") k = true := by
  rcases flattenObj_key parent d hp k hk with ⟨r, rfl⟩
  exact strStarts_refl_append _ _

theorem stream_key_starts (i : Nat) (ct : String) (st : List (String × JVal)) (k : String)
    (hk : k ∈ dkeys (flattenObj ((("stream_" ++ toString i) ++ "_") ++ ct) st)) :
    strStarts "stream_" k = true := by
  have hp : (("stream_" ++ toString i) ++ "_") ++ ct ≠ "" :=
    append_ne_empty_left _ _ (append_ne_empty_left _ _ (append_ne_empty_left _ _ (by decide)))
  rcases flattenObj_key _ st hp k hk with ⟨r, rfl⟩
  exact strStarts_append_right (strStarts_append_right (strStarts_append_right
    (strStarts_append_right (strStarts_refl_append "stream_" (toString i)) "_") ct) "_") r

theorem stream0_key_starts (ct : String) (st : List (String × JVal)) (k : String)
    (hk : k ∈ dkeys (flattenObj ((("stream_" ++ toString (0 : Nat)) ++ "_") ++ ct) st)) :
    strStarts "stream_0_" k = true := by
  have hp : (("stream_" ++ toString (0 : Nat)) ++ "_") ++ ct ≠ "" :=
    append_ne_empty_left _ _ (append_ne_empty_left _ _ (append_ne_empty_left _ _ (by decide)))
  rcases flattenObj_key _ st hp k hk with ⟨r, rfl⟩
  have h0 : ("stream_" ++ toString (0 : Nat)) ++ "_" = "stream_0_" := by decide
  rw [h0]
  exact strStarts_append_right (strStarts_append_right
    (strStarts_refl_append "stream_0_" ct) "_") r

/-! ### Success-record lemmas -/

theorem dlookup_streamUpdates (sts : List (List (String × JVal))) (m : Record) (i : Nat)
    (key : String) (hkey : strStarts "stream_" key = false) :
    dlookup (streamUpdates m sts i) key = dlookup m key := by
  induction sts generalizing m i with
  | nil => rfl
  | cons st rest ih =>
    simp only [streamUpdates]
    rw [ih]
    apply dlookup_dupdate_not_mem
    intro p hp
    rcases List.mem_map.mp hp with ⟨q, hq, rfl⟩
    have hq1 : q.1 ∈ dkeys (flattenObj ((("stream_" ++ toString i) ++ "_") ++ codecTypeOf st) st) :=
      List.mem_map.mpr ⟨q, hq, rfl⟩
    exact ne_of_strStarts (stream_key_starts i (codecTypeOf st) st q.1 hq1) hkey

theorem mem_dkeys_streamUpdates (sts : List (List (String × JVal))) (m : Record) (i : Nat)
    (k : String) (h : k ∈ dkeys m) : k ∈ dkeys (streamUpdates m sts i) := by
  induction sts generalizing m i with
  | nil => exact h
  | cons st rest ih =>
    simp only [streamUpdates]
    exact ih _ _ (mem_dkeys_dupdate_of_mem _ _ _ h)

theorem dlookup_successRecord (data : FFData) (pflag : Bool) (key : String)
    (hs : strStarts "stream_" key = false)
    (hf : strStarts ("format" ++ "_") key = false)
    (hfs : key ≠ "file_size_bytes") :
    dlookup (successRecord data pflag) key =
      dlookup [("is_valid", RVal.bv true),
        ("validation_method", RVal.sv (if pflag then "partial" else "full"))] key := by
  unfold successRecord
  rw [dlookup_streamUpdates _ _ _ _ hs]
  cases hfmt : data.format with
  | none => rfl
  | some fmt =>
    rw [dlookup_dinsert_ne _ _ _ _ hfs, dlookup_dupdate_not_mem]
    intro p hp
    rcases List.mem_map.mp hp with ⟨q, hq, rfl⟩
    have hq1 : q.1 ∈ dkeys (flattenObj "format" fmt) := List.mem_map.mpr ⟨q, hq, rfl⟩
    exact ne_of_strStarts (flattenObj_key_starts "format" fmt (by decide) q.1 hq1) hf

theorem successRecord_is_valid (data : FFData) (pflag : Bool) :
    dlookup (successRecord data pflag) "is_valid" = some (RVal.bv true) := by
  rw [dlookup_successRecord data pflag "is_valid" (by decide) (by decide) (by decide)]
  rfl

theorem successRecord_error (data : FFData) (pflag : Bool) :
    dlookup (successRecord data pflag) "error" = none := by
  rw [dlookup_successRecord data pflag "error" (by decide) (by decide) (by decide)]
  rfl

theorem successRecord_method (data : FFData) (pflag : Bool) :
    dlookup (successRecord data pflag) "validation_method" =
      some (RVal.sv (if pflag then "partial" else "full")) := by
  rw [dlookup_successRecord data pflag "validation_method" (by decide) (by decide) (by decide)]
  rfl

theorem successRecord_stream0_key (data : FFData) (pflag : Bool)
    (st0 : List (String × JVal)) (tl : List (List (String × JVal)))
    (hs : data.streams = st0 :: tl) (hleaf : 0 < leafCountObj st0) :
    ∃ k, k ∈ dkeys (successRecord data pflag) ∧ strStarts "stream_0_" k = true := by
  have hlen : (flattenObj ((("stream_" ++ toString (0 : Nat)) ++ "_") ++ codecTypeOf st0)
      st0).length = leafCountObj st0 := flattenObj_length _ _
  obtain ⟨p, items', hitems⟩ : ∃ p items',
      flattenObj ((("stream_" ++ toString (0 : Nat)) ++ "_") ++ codecTypeOf st0) st0 =
        p :: items' := by
    cases hfe : flattenObj ((("stream_" ++ toString (0 : Nat)) ++ "_") ++ codecTypeOf st0) st0 with
    | nil => rw [hfe] at hlen; simp at hlen; omega
    | cons p items' => exact ⟨p, items', rfl⟩
  have hmem : p.1 ∈ dkeys (flattenObj ((("stream_" ++ toString (0 : Nat)) ++ "_") ++
      codecTypeOf st0) st0) := by
    rw [hitems]
    exact List.mem_map.mpr ⟨p, List.mem_cons_self _ _, rfl⟩
  refine ⟨p.1, ?_, stream0_key_starts (codecTypeOf st0) st0 p.1 hmem⟩
  unfold successRecord
  rw [hs]
  simp only [streamUpdates]
  apply mem_dkeys_streamUpdates
  apply mem_dkeys_dupdate_of_mem_items
  rw [hitems]
  exact List.mem_map.mpr ⟨(p.1, RVal.jv p.2), List.mem_cons_self _ _, rfl⟩

/-! ### Case analyses of run_ffprobe and validate_url_entry -/

theorem run_ffprobe_shape (w : World) (url : String) (pflag : Bool) :
    (∃ msg, (run_ffprobe w url pflag).1 =
        [("is_valid", RVal.bv false), ("error", RVal.sv ("http_error: " ++ msg))]) ∨
    ((run_ffprobe w url pflag).1 =
        [("is_valid", RVal.bv false), ("error", RVal.sv "empty_response_body")]) ∨
    (∃ msg, (run_ffprobe w url pflag).1 =
        [("is_valid", RVal.bv false), ("error", RVal.sv ("general_error: " ++ msg)),
         ("url", RVal.sv url)]) ∨
    (∃ msg, (run_ffprobe w url pflag).1 =
        [("is_valid", RVal.bv false), ("error", RVal.sv ("ffprobe_error: " ++ msg))]) ∨
    ((run_ffprobe w url pflag).1 =
        [("is_valid", RVal.bv false), ("error", RVal.sv "no_media_streams")]) ∨
    (∃ data, data.streams ≠ [] ∧ (run_ffprobe w url pflag).1 = successRecord data pflag) := by
  unfold run_ffprobe
  cases hf : (if pflag then w.fetchPartial url else w.fetchFull url) with
  | exn msg => exact Or.inl ⟨msg, rfl⟩
  | ok content =>
    dsimp only
    by_cases he : (pflag && content.isEmpty) = true
    · rw [if_pos he]
      exact Or.inr (Or.inl rfl)
    · rw [if_neg he]
      cases hp : w.probe content with
      | timeout msg => exact Or.inr (Or.inr (Or.inl ⟨msg, rfl⟩))
      | done rc out stderr =>
        dsimp only
        by_cases hrc : rc ≠ 0
        · rw [if_pos hrc]
          exact Or.inr (Or.inr (Or.inr (Or.inl ⟨stderr.take 200, rfl⟩)))
        · rw [if_neg hrc]
          cases out with
          | malformed msg => exact Or.inr (Or.inr (Or.inl ⟨msg, rfl⟩))
          | parsed data =>
            dsimp only
            by_cases hst : data.streams.isEmpty = true
            · rw [if_pos hst]
              exact Or.inr (Or.inr (Or.inr (Or.inr (Or.inl rfl))))
            · rw [if_neg hst]
              refine Or.inr (Or.inr (Or.inr (Or.inr (Or.inr ⟨data, ?_, rfl⟩))))
              simpa using hst

theorem run_ffprobe_fullFetches (w : World) (url : String) (pflag : Bool) :
    (run_ffprobe w url pflag).2.fullFetches = if pflag then 0 else 1 := by
  unfold run_ffprobe
  cases hf : (if pflag then w.fetchPartial url else w.fetchFull url) with
  | exn msg => cases pflag <;> rfl
  | ok content =>
    dsimp only
    by_cases he : (pflag && content.isEmpty) = true
    · rw [if_pos he]
      cases pflag <;> rfl
    · rw [if_neg he]
      cases hp : w.probe content with
      | timeout msg => cases pflag <;> rfl
      | done rc out stderr =>
        dsimp only
        by_cases hrc : rc ≠ 0
        · rw [if_pos hrc]
          cases pflag <;> rfl
        · rw [if_neg hrc]
          cases out with
          | malformed msg => cases pflag <;> rfl
          | parsed data =>
            dsimp only
            by_cases hst : data.streams.isEmpty = true
            · rw [if_pos hst]
              cases pflag <;> rfl
            · rw [if_neg hst]
              cases pflag <;> rfl

theorem validate_record_cases (w : World) (url mode : String) :
    ((validate_url_entry w url mode).1 =
        [("is_valid", RVal.bv false), ("error", RVal.sv "skipped_unsolved_or_tiny")]) ∨
    (∃ pflag, (validate_url_entry w url mode).1 = (run_ffprobe w url pflag).1) ∨
    ((validate_url_entry w url mode).1 =
        [("is_valid", RVal.bv false), ("error", RVal.sv "invalid_scan_mode")]) := by
  unfold validate_url_entry
  by_cases h1 : (pyIn "no_media_yet" url || pyIn "tiny_file" url) = true
  · rw [if_pos h1]
    exact Or.inl rfl
  · rw [if_neg h1]
    by_cases h2 : (mode == "fast") = true
    · rw [if_pos h2]
      exact Or.inr (Or.inl ⟨true, rfl⟩)
    · rw [if_neg h2]
      by_cases h3 : (mode == "full") = true
      · rw [if_pos h3]
        exact Or.inr (Or.inl ⟨false, rfl⟩)
      · rw [if_neg h3]
        by_cases h4 : (mode == "two-pass") = true
        · rw [if_pos h4]
          by_cases h5 : pyTruthy (dlookup (run_ffprobe w url true).1 "is_valid") = true
          · rw [if_pos h5]
            exact Or.inr (Or.inl ⟨true, rfl⟩)
          · rw [if_neg h5]
            by_cases h6 : pyIn "no_media_streams" (errStrOf (run_ffprobe w url true).1) = true
            · rw [if_pos h6]
              exact Or.inr (Or.inl ⟨false, rfl⟩)
            · rw [if_neg h6]
              exact Or.inr (Or.inl ⟨true, rfl⟩)
        · rw [if_neg h4]
          exact Or.inr (Or.inr rfl)

/-! ### Header and loader lemmas -/

theorem mem_insertHeader (x a : String) (l : List String) :
    a ∈ insertHeader x l ↔ a = x ∨ a ∈ l := by
  induction l with
  | nil => simp [insertHeader]
  | cons y ys ih =>
    by_cases h : headerLe x y = true
    · simp [insertHeader, h]
    · simp only [insertHeader, if_neg h, List.mem_cons, ih]
      tauto

theorem mem_foldr_insertHeader (l : List String) (a : String) (h : a ∈ l) :
    a ∈ l.foldr insertHeader [] := by
  induction l with
  | nil => simp at h
  | cons x xs ih =>
    rcases List.mem_cons.mp h with rfl | h1
    · exact (mem_insertHeader _ _ _).mpr (Or.inl rfl)
    · exact (mem_insertHeader _ _ _).mpr (Or.inr (ih h1))

theorem mem_sortedHeaders (results : List Record) (k : String)
    (h : ∃ r ∈ results, k ∈ dkeys r) : k ∈ sortedHeaders results := by
  unfold sortedHeaders
  apply mem_foldr_insertHeader
  rw [List.mem_dedup]
  rcases h with ⟨r, hr, hk⟩
  exact List.mem_flatMap.mpr ⟨r, hr, hk⟩

theorem dlookup_zip_map (hs : List String) (f : String → String) (k : String) (h : k ∈ hs) :
    dlookup (hs.zip (hs.map f)) k = some (f k) := by
  induction hs with
  | nil => simp at h
  | cons a tl ih =>
    by_cases ha : a = k
    · subst ha
      simp [dlookup]
    · rcases List.mem_cons.mp h with rfl | h1
      · exact absurd rfl ha
      · simp only [List.map_cons, List.zip_cons_cons, dlookup, if_neg ha]
        exact ih h1

/-! ### The claims -/

/-- C10: calling the persistence routine with an empty result collection
writes nothing — `save_results_to_csv` returns before opening the file,
so the previous snapshot of the output store is left unchanged. -/
theorem C10_save_empty_noop (file : Option CsvFile) :
    save_results_to_csv [] file = file := rfl

/-- C9: round-trip of the `is_valid` field through the output store —
for any record of the saved results whose `is_valid` is the boolean `x`,
the file is rewritten with the whole store, and re-loading that record's
row re-parses `is_valid` back to the same boolean `x`. -/
theorem C9_is_valid_roundtrip (results : List Record) (r : Record) (x : Bool)
    (file : Option CsvFile) (hr : r ∈ results)
    (hv : dlookup r "is_valid" = some (RVal.bv x)) :
    save_results_to_csv results file =
      some ⟨sortedHeaders results,
            results.map (fun rec => (sortedHeaders results).map (cellOf rec))⟩ ∧
    dlookup (loadRow (sortedHeaders results) ((sortedHeaders results).map (cellOf r)))
      "is_valid" = some (RVal.bv x) := by
  constructor
  · unfold save_results_to_csv
    rw [if_neg (by rw [List.isEmpty_iff]; exact List.ne_nil_of_mem hr)]
  · have hmem : "is_valid" ∈ sortedHeaders results :=
      mem_sortedHeaders results _ ⟨r, hr, dlookup_mem_dkeys r _ _ hv⟩
    have hcell : cellOf r "is_valid" = strOfBool x := by
      unfold cellOf
      rw [hv]
      rfl
    unfold loadRow
    rw [dlookup_zip_map _ (cellOf r) _ hmem]
    dsimp only
    rw [dlookup_dinsert_self, hcell]
    cases x <;> rfl

/-- Witness for C9 at a concrete record with `is_valid = True`. -/
theorem C9_is_valid_roundtrip_witness :
    dlookup (loadRow (sortedHeaders [recW]) ((sortedHeaders [recW]).map (cellOf recW)))
      "is_valid" = some (RVal.bv true) :=
  (C9_is_valid_roundtrip [recW] recW true none (List.mem_singleton_self recW) rfl).2

/-- C4: incremental persistence cadence — over a pass harvesting
`n` completions with batch size `batch > 0`, the store is saved
`n / batch` times inside the loop plus once unconditionally at the end. -/
theorem C4_persistence_cadence (n batch : Nat) (h : 0 < batch) :
    saveInvocations n batch = n / batch + 1 := by
  unfold saveInvocations batchSaves
  induction n with
  | zero => simp
  | succ m ih =>
    rw [List.range_succ, List.countP_append, Nat.succ_div]
    by_cases hd : batch ∣ (m + 1)
    · have h1 : ((m + 1) % batch == 0) = true := by
        simp [Nat.dvd_iff_mod_eq_zero.mp hd]
      simp only [List.countP_cons, List.countP_nil, h1, if_pos hd, if_true]
      omega
    · have h1 : ((m + 1) % batch == 0) = false := by
        simp only [beq_eq_false_iff_ne, ne_eq]
        exact fun hc => hd (Nat.dvd_of_mod_eq_zero hc)
      simp only [List.countP_cons, List.countP_nil, h1, if_neg hd,
        Bool.false_eq_true, if_false]
      omega

/-- Witness for C4 at the spec's scenario: batch 50, 120 completions,
exactly 3 saves. -/
theorem C4_persistence_cadence_witness : saveInvocations 120 50 = 3 :=
  (C4_persistence_cadence 120 50 (by decide)).trans rfl

/-- C7: a URL containing one of the sentinel markers is rejected with
the fixed `skipped_unsolved_or_tiny` code under every scan mode
(unrecognized ones included), with no range fetch and no subprocess
spawn. -/
theorem C7_sentinel_skip (w : World) (url mode : String)
    (h : (pyIn "no_media_yet" url || pyIn "tiny_file" url) = true) :
    validate_url_entry w url mode =
      ([("is_valid", RVal.bv false), ("error", RVal.sv "skipped_unsolved_or_tiny")],
       ⟨0, 0, 0⟩) := by
  unfold validate_url_entry
  rw [if_pos h]

/-- Witness for C7: a sentinel URL under an unrecognized scan mode. -/
theorem C7_sentinel_skip_witness :
    validate_url_entry wValidFast "https://host/no_media_yet_7.mp4" "weird-mode" =
      ([("is_valid", RVal.bv false), ("error", RVal.sv "skipped_unsolved_or_tiny")],
       ⟨0, 0, 0⟩) :=
  C7_sentinel_skip wValidFast _ _ (by decide)

/-- C6 (amended): a partial-size (fast) fetch that returns HTTP success
with a zero-length body yields the distinguished `empty_response_body`
failure before any subprocess is spawned; the deep (full-size) fetch has
no such guard and passes the empty bytes to the probe. -/
theorem C6_empty_body (w : World) (url : String) (h : w.fetchPartial url = .ok []) :
    run_ffprobe w url true =
      ([("is_valid", RVal.bv false), ("error", RVal.sv "empty_response_body")],
       ⟨1, 0, 0⟩) := by
  unfold run_ffprobe
  simp [h]

/-- Witness for C6: a concrete world whose fast fetch returns an empty
body. -/
theorem C6_empty_body_witness :
    run_ffprobe wEmptyBody "https://host/a.mp4" true =
      ([("is_valid", RVal.bv false), ("error", RVal.sv "empty_response_body")],
       ⟨1, 0, 0⟩) :=
  C6_empty_body wEmptyBody "https://host/a.mp4" rfl

set_option maxRecDepth 8192 in
/-- Counterexample to C6 as stated: in `full` scan mode a success status
with zero-length body is probed (one subprocess spawned) and the outcome
is the probe's failure, not `empty_response_body`. -/
theorem C6_empty_body_counterexample :
    wFullEmpty.fetchFull "https://host/a.mp4" = .ok [] ∧
    (validate_url_entry wFullEmpty "https://host/a.mp4" "full").1 =
      [("is_valid", RVal.bv false), ("error", RVal.sv "ffprobe_error: mock stderr")] ∧
    errStrOf ((validate_url_entry wFullEmpty "https://host/a.mp4" "full").1) ≠
      "empty_response_body" ∧
    (validate_url_entry wFullEmpty "https://host/a.mp4" "full").2.spawns = 1 :=
  ⟨rfl, rfl, by decide, rfl⟩

/-- C5 (amended): flattening is deterministic and maps each leaf to
exactly one item — the item list has exactly one entry per leaf of the
document — and whenever the underscore-joined key paths are pairwise
distinct, `flatten_dict` keeps every item, so each leaf maps to exactly
one key of the output record. -/
theorem C5_flatten_lossless :
    (∀ (parent : String) (d : List (String × JVal)),
        (flattenObj parent d).length = leafCountObj d) ∧
    (∀ (parent : String) (d : List (String × JVal)),
        (dkeys (flattenObj parent d)).Nodup →
        flatten_dict d parent = flattenObj parent d) :=
  ⟨fun parent d => flattenObj_length parent d,
   fun parent d h => by
     unfold flatten_dict
     exact dictOf_eq_self_of_nodup _ h⟩

/-- Witness for C5 at a collision-free document. -/
theorem C5_flatten_lossless_witness :
    flatten_dict [("format_name", JVal.leaf "mov"),
        ("tags", JVal.obj [("title", JVal.leaf "t")])] "" =
      flattenObj "" [("format_name", JVal.leaf "mov"),
        ("tags", JVal.obj [("title", JVal.leaf "t")])] :=
  C5_flatten_lossless.2 "" _ (by decide)

/-- Counterexample to C5 as stated: the document
`{'a': {'b': '1'}, 'a_b': '2'}` has two scalar leaves, but its
flattening has a single key — the nested leaf and the top-level leaf
collide on `a_b`, and the value `'1'` maps to no output key. -/
theorem C5_flatten_lossless_counterexample :
    flatten_dict [("a", JVal.obj [("b", JVal.leaf "1")]), ("a_b", JVal.leaf "2")] "" =
      [("a_b", JVal.leaf "2")] ∧
    leafCountObj [("a", JVal.obj [("b", JVal.leaf "1")]), ("a_b", JVal.leaf "2")] = 2 :=
  ⟨rfl, rfl⟩

/-- C3: the pending set is exactly the source rows whose `actual_url` is
not a key of the result store; and when the store's keys are precisely
the URLs of the first `N` of `M` pairwise-distinct candidate URLs, the
pending set has exactly `M − N` members. -/
theorem C3_pending_set (source_rows : List SourceRow) (store : List (String × Record)) :
    (∀ row, row ∈ pendingRows source_rows store ↔
        row ∈ source_rows ∧ (store.map Prod.fst).contains row.actual_url = false) ∧
    (∀ N, store.map Prod.fst = (source_rows.take N).map SourceRow.actual_url →
        (source_rows.map SourceRow.actual_url).Nodup → N ≤ source_rows.length →
        (pendingRows source_rows store).length = source_rows.length - N) := by
  constructor
  · intro row
    unfold pendingRows
    rw [List.mem_filter]
    constructor
    · rintro ⟨ha, hb⟩
      exact ⟨ha, by simpa using hb⟩
    · rintro ⟨ha, hb⟩
      exact ⟨ha, by simpa using hb⟩
  · intro N hkeys hnd hN
    have hsplit := List.take_append_drop N source_rows
    have htake : (source_rows.take N).filter
        (fun row => !((store.map Prod.fst).contains row.actual_url)) = [] := by
      rw [List.filter_eq_nil_iff]
      intro row hrow
      have hmem : row.actual_url ∈ store.map Prod.fst := by
        rw [hkeys]
        exact List.mem_map_of_mem _ hrow
      simp [List.elem_iff, hmem]
    have hdrop : (source_rows.drop N).filter
        (fun row => !((store.map Prod.fst).contains row.actual_url)) = source_rows.drop N := by
      rw [List.filter_eq_self]
      intro row hrow
      have hnd' : ((source_rows.take N).map SourceRow.actual_url ++
          (source_rows.drop N).map SourceRow.actual_url).Nodup := by
        rw [← List.map_append, hsplit]
        exact hnd
      have hnm : row.actual_url ∉ store.map Prod.fst := by
        rw [hkeys]
        intro hc
        exact (List.nodup_append.mp hnd').2.2 hc (List.mem_map_of_mem _ hrow)
      simp [List.elem_iff, hnm]
    have hfilter : pendingRows source_rows store = source_rows.drop N := by
      unfold pendingRows
      conv_lhs => rw [← hsplit]
      rw [List.filter_append, htake, hdrop, List.nil_append]
    rw [hfilter, List.length_drop]

/-- Witness for C3's counting scenario: a store holding the first of two
distinct candidate URLs leaves a pending set of exactly one row. -/
theorem C3_pending_set_witness :
    (pendingRows [⟨"o1", "u1", "video"⟩, ⟨"o2", "u2", "video"⟩]
        [("u1", [("is_valid", RVal.bv true)])]).length =
      ([⟨"o1", "u1", "video"⟩, ⟨"o2", "u2", "video"⟩] : List SourceRow).length - 1 :=
  (C3_pending_set [⟨"o1", "u1", "video"⟩, ⟨"o2", "u2", "video"⟩]
      [("u1", [("is_valid", RVal.bv true)])]).2 1 rfl (by decide) (by decide)

/-- A deep probe that reports valid carries `validation_method = full`. -/
theorem run_ffprobe_full_method (w : World) (url : String)
    (h : dlookup (run_ffprobe w url false).1 "is_valid" = some (RVal.bv true)) :
    dlookup (run_ffprobe w url false).1 "validation_method" = some (RVal.sv "full") := by
  rcases run_ffprobe_shape w url false with
    ⟨m, hr⟩ | hr | ⟨m, hr⟩ | ⟨m, hr⟩ | hr | ⟨data, hne, hr⟩ <;> rw [hr] at h ⊢
  · simp [dlookup] at h
  · simp [dlookup] at h
  · simp [dlookup] at h
  · simp [dlookup] at h
  · simp [dlookup] at h
  · simpa using successRecord_method data false

/-- C8: totality and the error taxonomy — every validation outcome, over
every world, URL and scan mode, either is valid with no error key, or is
invalid with an `error` string drawn from the design's taxonomy
(HttpError, EmptyBody, ProbeError, NoMediaStreams, SkippedSentinel,
InvalidMode); no case escapes the validation task. -/
theorem C8_total_error_taxonomy (w : World) (url mode : String) :
    (dlookup ((validate_url_entry w url mode).1) "is_valid" = some (RVal.bv true) ∧
      dlookup ((validate_url_entry w url mode).1) "error" = none) ∨
    (dlookup ((validate_url_entry w url mode).1) "is_valid" = some (RVal.bv false) ∧
      ∃ e, dlookup ((validate_url_entry w url mode).1) "error" = some (RVal.sv e) ∧
        errTaxonomy e) := by
  rcases validate_record_cases w url mode with hc | ⟨pflag, hc⟩ | hc
  · rw [hc]
    exact Or.inr ⟨rfl, "skipped_unsolved_or_tiny", rfl,
      Or.inr (Or.inr (Or.inr (Or.inr (Or.inr (Or.inl rfl)))))⟩
  · rw [hc]
    rcases run_ffprobe_shape w url pflag with
      ⟨m, hr⟩ | hr | ⟨m, hr⟩ | ⟨m, hr⟩ | hr | ⟨data, hne, hr⟩ <;> rw [hr]
    · exact Or.inr ⟨rfl, "http_error: " ++ m, rfl, Or.inl ⟨m, rfl⟩⟩
    · exact Or.inr ⟨rfl, "empty_response_body", rfl, Or.inr (Or.inl rfl)⟩
    · exact Or.inr ⟨rfl, "general_error: " ++ m, rfl,
        Or.inr (Or.inr (Or.inr (Or.inl ⟨m, rfl⟩)))⟩
    · exact Or.inr ⟨rfl, "ffprobe_error: " ++ m, rfl, Or.inr (Or.inr (Or.inl ⟨m, rfl⟩))⟩
    · exact Or.inr ⟨rfl, "no_media_streams", rfl,
        Or.inr (Or.inr (Or.inr (Or.inr (Or.inl rfl))))⟩
    · exact Or.inl ⟨successRecord_is_valid data pflag, successRecord_error data pflag⟩
  · rw [hc]
    exact Or.inr ⟨rfl, "invalid_scan_mode", rfl,
      Or.inr (Or.inr (Or.inr (Or.inr (Or.inr (Or.inr rfl)))))⟩

/-- C1 (amended): if a validation record has `is_valid = true` then it
has no `error` key and it is the success record of a parsed probe
document with at least one stream entry; moreover whenever the first
stream object contains at least one leaf, the record has a key with
prefix `stream_0_` (an empty first stream object contributes no key —
the unconditional key-existence of the original claim fails there). If
`is_valid = false` then an `error` key is present with a non-empty
string value. -/
theorem C1_record_invariant (w : World) (url mode : String) :
    (dlookup ((validate_url_entry w url mode).1) "is_valid" = some (RVal.bv true) →
      dlookup ((validate_url_entry w url mode).1) "error" = none ∧
      ∃ pflag data, data.streams ≠ [] ∧
        (validate_url_entry w url mode).1 = successRecord data pflag ∧
        (∀ st0 tl, data.streams = st0 :: tl → 0 < leafCountObj st0 →
          ∃ k, k ∈ dkeys ((validate_url_entry w url mode).1) ∧
            strStarts "stream_0_" k = true)) ∧
    (dlookup ((validate_url_entry w url mode).1) "is_valid" = some (RVal.bv false) →
      ∃ e, dlookup ((validate_url_entry w url mode).1) "error" = some (RVal.sv e) ∧
        e ≠ "") := by
  rcases validate_record_cases w url mode with hc | ⟨pflag, hc⟩ | hc
  · rw [hc]
    refine ⟨fun hv => ?_, fun _ => ⟨"skipped_unsolved_or_tiny", rfl, by decide⟩⟩
    simp [dlookup] at hv
  · rw [hc]
    rcases run_ffprobe_shape w url pflag with
      ⟨m, hr⟩ | hr | ⟨m, hr⟩ | ⟨m, hr⟩ | hr | ⟨data, hne, hr⟩ <;> rw [hr]
    · refine ⟨fun hv => ?_, fun _ =>
        ⟨"http_error: " ++ m, rfl, append_ne_empty_left _ _ (by decide)⟩⟩
      simp [dlookup] at hv
    · refine ⟨fun hv => ?_, fun _ => ⟨"empty_response_body", rfl, by decide⟩⟩
      simp [dlookup] at hv
    · refine ⟨fun hv => ?_, fun _ =>
        ⟨"general_error: " ++ m, rfl, append_ne_empty_left _ _ (by decide)⟩⟩
      simp [dlookup] at hv
    · refine ⟨fun hv => ?_, fun _ =>
        ⟨"ffprobe_error: " ++ m, rfl, append_ne_empty_left _ _ (by decide)⟩⟩
      simp [dlookup] at hv
    · refine ⟨fun hv => ?_, fun _ => ⟨"no_media_streams", rfl, by decide⟩⟩
      simp [dlookup] at hv
    · refine ⟨fun _ => ⟨successRecord_error data pflag, pflag, data, hne, rfl, ?_⟩,
        fun hv => ?_⟩
      · intro st0 tl hs hleaf
        exact successRecord_stream0_key data pflag st0 tl hs hleaf
      · rw [successRecord_is_valid] at hv
        simp at hv
  · rw [hc]
    refine ⟨fun hv => ?_, fun _ => ⟨"invalid_scan_mode", rfl, by decide⟩⟩
    simp [dlookup] at hv

set_option maxRecDepth 8192 in
/-- Counterexample to C1 as stated: a probe output whose single stream
entry is the empty object yields a record with `is_valid = true` and no
`stream_0_*` key at all. -/
theorem C1_record_invariant_counterexample :
    dlookup ((validate_url_entry wEmptyStreamObj "https://host/a.mp4" "fast").1) "is_valid" =
      some (RVal.bv true) ∧
    (dkeys ((validate_url_entry wEmptyStreamObj "https://host/a.mp4" "fast").1)).all
      (fun k => !(strStarts "stream_0_" k)) = true :=
  ⟨rfl, rfl⟩

/-- C2 (amended): under `two-pass`, for a non-sentinel URL, the deep
(full-size) fetch+probe is performed exactly once if and only if the
fast pass's record is falsy on `is_valid` and its error string contains
`no_media_streams` as a substring (for the canonical error codes this is
the `NoMediaStreams` failure, but any error text containing those
characters also escalates — the original claim's "error is
NoMediaStreams exactly" is refuted below). A truthy fast result, or a
failure without that substring, is returned as-is with no deep fetch;
in the escalated case the deep outcome is returned and carries
`validation_method = full` whenever it is valid. -/
theorem C2_two_pass_escalation (w : World) (url : String)
    (h1 : pyIn "no_media_yet" url = false) (h2 : pyIn "tiny_file" url = false) :
    ((validate_url_entry w url "two-pass").2.fullFetches =
      if pyTruthy (dlookup (run_ffprobe w url true).1 "is_valid") = false ∧
          pyIn "no_media_streams" (errStrOf (run_ffprobe w url true).1) = true
        then 1 else 0) ∧
    (pyTruthy (dlookup (run_ffprobe w url true).1 "is_valid") = true →
      validate_url_entry w url "two-pass" = run_ffprobe w url true) ∧
    (pyTruthy (dlookup (run_ffprobe w url true).1 "is_valid") = false →
      pyIn "no_media_streams" (errStrOf (run_ffprobe w url true).1) = true →
      (validate_url_entry w url "two-pass").1 = (run_ffprobe w url false).1 ∧
      (dlookup ((validate_url_entry w url "two-pass").1) "is_valid" = some (RVal.bv true) →
        dlookup ((validate_url_entry w url "two-pass").1) "validation_method" =
          some (RVal.sv "full"))) ∧
    (pyTruthy (dlookup (run_ffprobe w url true).1 "is_valid") = false →
      pyIn "no_media_streams" (errStrOf (run_ffprobe w url true).1) = false →
      validate_url_entry w url "two-pass" = run_ffprobe w url true) := by
  by_cases hT : pyTruthy (dlookup (run_ffprobe w url true).1 "is_valid") = true
  · have hv : validate_url_entry w url "two-pass" = run_ffprobe w url true := by
      unfold validate_url_entry
      rw [if_neg (by simp [h1, h2]), if_neg (by decide), if_neg (by decide),
        if_pos (by decide), if_pos hT]
    refine ⟨?_, fun _ => hv,
      fun hF _ => absurd (hF.symm.trans hT) (by decide),
      fun hF _ => absurd (hF.symm.trans hT) (by decide)⟩
    simp [hv, run_ffprobe_fullFetches, hT]
  · have hT' : pyTruthy (dlookup (run_ffprobe w url true).1 "is_valid") = false := by
      simpa using hT
    by_cases hS : pyIn "no_media_streams" (errStrOf (run_ffprobe w url true).1) = true
    · have hv : validate_url_entry w url "two-pass" =
          ((run_ffprobe w url false).1,
           ⟨(run_ffprobe w url true).2.partialFetches +
              (run_ffprobe w url false).2.partialFetches,
            (run_ffprobe w url true).2.fullFetches +
              (run_ffprobe w url false).2.fullFetches,
            (run_ffprobe w url true).2.spawns + (run_ffprobe w url false).2.spawns⟩) := by
        unfold validate_url_entry
        rw [if_neg (by simp [h1, h2]), if_neg (by decide), if_neg (by decide),
          if_pos (by decide), if_neg (by simp [hT']), if_pos hS]
      refine ⟨?_, fun hTT => absurd (hT'.symm.trans hTT) (by decide),
        fun _ _ => ⟨by rw [hv], ?_⟩,
        fun _ hSS => absurd (hSS.symm.trans hS) (by decide)⟩
      · rw [hv]
        simp [run_ffprobe_fullFetches, hT', hS]
      · intro hvalid
        rw [hv] at hvalid ⊢
        dsimp only at hvalid ⊢
        exact run_ffprobe_full_method w url hvalid
    · have hS' : pyIn "no_media_streams" (errStrOf (run_ffprobe w url true).1) = false := by
        simpa using hS
      have hv : validate_url_entry w url "two-pass" = run_ffprobe w url true := by
        unfold validate_url_entry
        rw [if_neg (by simp [h1, h2]), if_neg (by decide), if_neg (by decide),
          if_pos (by decide), if_neg (by simp [hT']), if_neg (by simp [hS'])]
      refine ⟨?_, fun hTT => absurd (hT'.symm.trans hTT) (by decide),
        fun _ hSS => absurd (hS'.symm.trans hSS) (by decide),
        fun _ _ => hv⟩
      simp [hv, run_ffprobe_fullFetches, hT', hS']

set_option maxRecDepth 8192 in
/-- Witness for C2: a world whose fast probe succeeds — the two-pass
result is the fast result, no deep fetch. -/
theorem C2_two_pass_escalation_witness :
    validate_url_entry wValidFast "https://host/a.mp4" "two-pass" =
      run_ffprobe wValidFast "https://host/a.mp4" true :=
  (C2_two_pass_escalation wValidFast "https://host/a.mp4" rfl rfl).2.1 rfl

set_option maxRecDepth 8192 in
/-- Counterexample to C2 as stated: a fast pass failing with an
`http_error` whose message merely contains the characters
`no_media_streams` escalates to the deep fetch, although the failure's
kind is HttpError, not NoMediaStreams. -/
theorem C2_two_pass_escalation_counterexample :
    (validate_url_entry wEscalateHttp "https://host/a.mp4" "two-pass").2.fullFetches = 1 ∧
    errStrOf (run_ffprobe wEscalateHttp "https://host/a.mp4" true).1 =
      "http_error: Max retries exceeded: /media/no_media_streams_clip.mp4" ∧
    "http_error: Max retries exceeded: /media/no_media_streams_clip.mp4" ≠
      "no_media_streams" :=
  ⟨rfl, rfl, by decide⟩
